import Mathlib

/-!
Verification of the cash-flow-tracker ledger against its specification.

The definitions below are a shallow embedding of the repository's code:
* the PostgreSQL schema in `src/db/init.sql` and the migration
  `src/db/migrations/V6__transaction_cycle_topup.sql` (tables become
  structures, CHECK constraints become boolean row predicates, the
  backfill UPDATE becomes a function on row lists);
* the browser helpers in `src/public/app.js` (`parseAmount`, `fmtIDR`,
  `normalizeSearch`, `fuzzyMatch`, `filterRowsBySearch`, `clampMonthYM`,
  `clampYmdToToday`, and the switch/payday form submit handlers).

JavaScript runtime values that cannot be embedded (the wall clock behind
`new Date()`, the timezone-dependent `isoToLocalDisplay`/`ymdTimeToIso`)
are passed as explicit parameters, so every theorem quantifies over them.
-/

namespace CashFlow

/-! ## Database schema (src/db/init.sql) -/

/-- One row of the `transactions` table (`src/db/init.sql`, lines 21-36).
UUID and timestamp columns are abstracted as strings; `amount` is the
BIGINT amount in minor units. -/
structure TransactionRow where
  transaction_id : String
  account_id : String
  transaction_type : String
  is_cycle_topup : Bool
  transaction_name : String
  amount : Int
  date : String
  is_transfer : Bool
  transfer_id : Option String
  deleted_at : Option String
  deleted_by : Option String
  delete_reason : Option String
deriving DecidableEq, Repr

/-- The CHECK constraints of the `transactions` table:
`transaction_type IN ('debit','credit')`, `amount > 0`, and
`ck_tx_cycle_topup_debit`: `NOT is_cycle_topup OR transaction_type = 'debit'`. -/
def txCheck (t : TransactionRow) : Bool :=
  (t.transaction_type == "debit" || t.transaction_type == "credit") &&
  decide (0 < t.amount) &&
  (!t.is_cycle_topup || t.transaction_type == "debit")

/-- Just the `ck_tx_cycle_topup_debit` constraint, as added by
`V6__transaction_cycle_topup.sql`. -/
def ckTxCycleTopupDebit (t : TransactionRow) : Bool :=
  !t.is_cycle_topup || t.transaction_type == "debit"

/-- The WHERE clause of the V6 backfill UPDATE:
`transaction_name = 'Top Up Balance' AND transaction_type = 'debit'
 AND is_transfer = FALSE AND deleted_at IS NULL`. -/
def v6Cond (t : TransactionRow) : Bool :=
  t.transaction_name == "Top Up Balance" &&
  t.transaction_type == "debit" &&
  !t.is_transfer &&
  t.deleted_at.isNone

/-- Effect of the V6 UPDATE on a single row: set `is_cycle_topup := TRUE`
when the WHERE clause matches, leave the row unchanged otherwise. -/
def v6Step (t : TransactionRow) : TransactionRow :=
  if v6Cond t then { t with is_cycle_topup := true } else t

/-- The V6 backfill UPDATE applied to the whole `transactions` table. -/
def v6Backfill (tbl : List TransactionRow) : List TransactionRow :=
  tbl.map v6Step

/-- One row of the `payday_overrides` table (`src/db/init.sql`, lines 48-54). -/
structure PaydayOverrideRow where
  username : String
  month : String
  payday_day : Int
deriving DecidableEq, Repr

/-- The CHECK constraint of `payday_overrides`: `payday_day BETWEEN 1 AND 31`. -/
def paydayRowCheck (r : PaydayOverrideRow) : Bool :=
  decide (1 ≤ r.payday_day) && decide (r.payday_day ≤ 31)

/-- The primary-key columns of `payday_overrides`: `(username, month)`. -/
def paydayKey (r : PaydayOverrideRow) : String × String :=
  (r.username, r.month)

/-- Well-formedness of the `payday_overrides` table: every row passes the
CHECK constraint and the `PRIMARY KEY (username, month)` makes keys
pairwise distinct. -/
def paydayTableOk (tbl : List PaydayOverrideRow) : Prop :=
  (∀ r ∈ tbl, paydayRowCheck r = true) ∧
  tbl.Pairwise (fun a b => paydayKey a ≠ paydayKey b)

/-! ## JavaScript string comparison

`clampMonthYM` and `clampYmdToToday` in `src/public/app.js` compare date
strings with the JavaScript `>` operator, which is lexicographic on code
units.  `jsLtChars` embeds that comparison. -/

/-- Lexicographic code-unit comparison of two character lists, as the
JavaScript `<`/`>` string operators perform it. -/
def jsLtChars : List Char → List Char → Bool
  | [], [] => false
  | [], _ :: _ => true
  | _ :: _, [] => false
  | a :: as, b :: bs => if a = b then jsLtChars as bs else decide (a < b)

/-- JavaScript string comparison `s < t`. -/
def jsLt (s t : String) : Bool :=
  jsLtChars s.data t.data

/-- Embedding of `clampMonthYM` (`src/public/app.js`, lines 2038-2042).  The first
argument stands for `currentMonthYM()`, the `YYYY-MM` token of the wall
clock, which the embedding takes as a parameter.  The JavaScript guard
`!ym` is the empty-string test and `ym > max` is `jsLt max ym`. -/
def clampMonthYM (nowYM ym : String) : String :=
  if ym = "" then nowYM
  else if jsLt nowYM ym then nowYM
  else ym

/-- Embedding of `clampYmdToToday` (`src/public/app.js`, lines 1744-1748).  The first
argument stands for `dateToYMD(new Date())`, today's `YYYY-MM-DD` token. -/
def clampYmdToToday (today ymd : String) : String :=
  if ymd = "" then today
  else if jsLt today ymd then today
  else ymd

/-! ## Money parsing and formatting (src/public/app.js) -/

/-- Decimal value of a digit-character list, most significant first: the
value `Number(cleaned)` produces for an all-digit string. -/
def digitsVal (cs : List Char) : Nat :=
  cs.foldl (fun acc c => 10 * acc + (c.toNat - 48)) 0

/-- Embedding of `parseAmount` (`src/public/app.js`, lines 82-85): strip every
non-digit character (`replace(/[^\d]/g, "")`), then `Number(cleaned)`,
with `0` for the empty result. -/
def parseAmount (s : String) : Nat :=
  let cleaned := s.data.filter Char.isDigit
  if cleaned = [] then 0 else digitsVal cleaned

/-- Embedding of `Array.prototype.join` with separator `sep`: concatenate the groups
with `sep` spliced between consecutive groups. -/
def joinSep {α : Type} (sep : List α) : List (List α) → List α
  | [] => []
  | [g] => g
  | g :: g' :: gs => g ++ sep ++ joinSep sep (g' :: gs)

/-- Split a list into chunks of three, starting from the front. -/
def chunk3 {α : Type} : List α → List (List α)
  | [] => []
  | [a] => [[a]]
  | [a, b] => [[a, b]]
  | a :: b :: c :: rest => [a, b, c] :: chunk3 rest

/-- Embedding of `fmtIDR` (`src/public/app.js`, line 60):
`(n || 0).toLocaleString("id-ID")`, i.e. the decimal digits of `n`
grouped in threes from the least significant digit with `.` separators
(id-ID digit grouping), and `"0"` for zero.  `Nat.digits 10 n` lists the
decimal digits least significant first, so the chunks are built on that
list and each chunk and the chunk list are reversed for display. -/
def fmtIDR (n : Nat) : String :=
  if n = 0 then "0"
  else String.mk (joinSep ['.']
    (((chunk3 ((Nat.digits 10 n).map Nat.digitChar)).map List.reverse).reverse))

/-! ## Ledger search (src/public/app.js) -/

/-- The character class `[a-z0-9]` retained by `normalizeSearch`. -/
def isSearchChar (c : Char) : Bool :=
  (decide ('a' ≤ c) && decide (c ≤ 'z')) || (decide ('0' ≤ c) && decide (c ≤ '9'))

/-- Embedding of `normalizeSearch` (`src/public/app.js`, line 109): lowercase the
string, then delete every character outside `[a-z0-9]`.  ASCII case
folding (`Char.toLower`) models `toLowerCase` on the retained range. -/
def normalizeSearch (s : String) : String :=
  String.mk ((s.data.map Char.toLower).filter isSearchChar)

/-- The scanning loop of `fuzzyMatch` (`src/public/app.js`, lines
111-118): walk the text once, advancing in the query on every character
match; succeed when the query is exhausted. -/
def fuzzyGo : List Char → List Char → Bool
  | [], _ => true
  | _ :: _, [] => false
  | q :: qs, c :: ts => if c = q then fuzzyGo qs ts else fuzzyGo (q :: qs) ts

/-- Embedding of `fuzzyMatch(query, text)` from `src/public/app.js`. -/
def fuzzyMatch (query text : String) : Bool :=
  fuzzyGo query.data text.data

/-- ASCII case folding of a string, used to say two strings differ only
in letter case. -/
def caseFold (s : String) : List Char :=
  s.data.map Char.toLower

/-- One displayed ledger row, with the fields `filterRowsBySearch` reads:
transaction name, account name, ISO date, and the debit/credit/balance
cells (`none` embeds the JavaScript `null`). -/
structure LedgerRow where
  transaction_name : String
  account_name : String
  date : String
  debit : Option Int
  credit : Option Int
  balance : Option Int
deriving DecidableEq, Repr

/-- How `Array.prototype.join` renders a numeric cell: `null` becomes the
empty string, a number its decimal representation. -/
def joinCell : Option Int → String
  | none => ""
  | some n => toString n

/-- The haystack built by `filterRowsBySearch` (`src/public/app.js`,
lines 330-339): the join with `" "` of transaction name, account name,
the displayed date, and the three numeric cells.  `isoToLocalDisplay`
depends on the runtime timezone, so it is the parameter `dispDate`. -/
def rowHaystack (dispDate : String → String) (r : LedgerRow) : String :=
  String.mk (joinSep [' ']
    [r.transaction_name.data, r.account_name.data, (dispDate r.date).data,
     (joinCell r.debit).data, (joinCell r.credit).data, (joinCell r.balance).data])

/-- Embedding of `filterRowsBySearch` (`src/public/app.js`, lines 326-342): normalize
the query; an empty normalized query keeps all rows; otherwise keep the
rows whose normalized haystack fuzzy-matches the normalized query. -/
def filterRowsBySearch (dispDate : String → String)
    (rows : List LedgerRow) (query : String) : List LedgerRow :=
  let cleaned := normalizeSearch query
  if cleaned = "" then rows
  else rows.filter fun r => fuzzyMatch cleaned (normalizeSearch (rowHaystack dispDate r))

/-! ## Form submit handlers (src/public/app.js) -/

/-- The body of a request to `/api/switch`. -/
structure SwitchPayload where
  source_account_id : String
  target_account_id : String
  amount : Nat
  date : Option String
deriving DecidableEq, Repr

/-- Outcome of the switch-form submit handler: an error message shown in
`switchMsg`, or a PUT/POST request to `/api/switch`. -/
inductive SwitchSubmitResult where
  | error (msg : String)
  | put (transferId : String) (payload : SwitchPayload)
  | post (payload : SwitchPayload)
deriving DecidableEq, Repr

/-- The switch-form submit handler (`src/public/app.js`, lines
4048-4091).  `iso` stands for `ymdTimeToIso` (timezone-dependent),
`today` for `dateToYMD(new Date())`, `nowT` for `nowTime()`;
`editingTransferId`, `dateInitial`, `timeInitial` are the
`state.editing_transfer_id`, `switchDateInitial`, `switchTimeInitial`
variables; the last five arguments are the raw form control values, with
`""` for a missing value (JavaScript falsiness of empty strings). -/
def switchSubmit (iso : String → String → String)
    (today : String) (editingTransferId : Option String)
    (dateInitial timeInitial nowT : String)
    (fromValue stateAccountId toValue amountValue dateValue : String) :
    SwitchSubmitResult :=
  let source := if fromValue = "" then stateAccountId else fromValue
  let target := toValue
  let amount := parseAmount amountValue
  if source = "" ∨ target = "" ∨ amount = 0 then
    .error "Select source, target, and amount."
  else if source = target then
    .error "Source and target must differ."
  else
    let selectedDate := clampYmdToToday today dateValue
    let timeUsed := if timeInitial = "" then nowT else timeInitial
    match editingTransferId with
    | some tid =>
        .put tid ⟨source, target, amount,
          if selectedDate = "" then none
          else if selectedDate = dateInitial then none
          else some (iso selectedDate timeUsed)⟩
    | none =>
        .post ⟨source, target, amount,
          if selectedDate = "" then none
          else some (iso selectedDate timeUsed)⟩

/-- The payday-form submit handler (`src/public/app.js`, lines
3152-3169): with `day = Number(paydayDayInput?.value || 0)`, reject when
`!day || day < 1 || day > 31`, otherwise PUT `{ month, day }` to
`/api/payday`.  The parsed numeric value is taken as an integer
parameter (`Number` of a non-numeric string is `NaN`, which the `!day`
guard also rejects). -/
def paydaySubmit (month : String) (day : Int) : Option (String × Int) :=
  if day = 0 ∨ day < 1 ∨ 31 < day then none
  else some (month, day)

/-! ## Helper lemmas -/

/-- The comparison `jsLtChars` agrees with the lexicographic order on character lists
(`List.Lex (· < ·)`, the order underlying Mathlib's `String` order). -/
theorem jsLtChars_iff_lex :
    ∀ s t : List Char, jsLtChars s t = true ↔ List.Lex (· < ·) s t
  | [], [] => by
      simp only [jsLtChars, Bool.false_eq_true, false_iff]
      exact List.Lex.not_nil_right _ _
  | [], _ :: _ => by
      simp only [jsLtChars, true_iff]
      exact List.Lex.nil
  | _ :: _, [] => by
      simp only [jsLtChars, Bool.false_eq_true, false_iff]
      exact List.Lex.not_nil_right _ _
  | a :: as, b :: bs => by
      by_cases hab : a = b
      · subst hab
        have hstep : jsLtChars (a :: as) (a :: bs) = jsLtChars as bs := by
          simp [jsLtChars]
        rw [hstep, jsLtChars_iff_lex as bs]
        exact List.Lex.cons_iff.symm
      · simp only [jsLtChars, if_neg hab, decide_eq_true_eq]
        constructor
        · exact fun h => List.Lex.rel h
        · intro h
          cases h with
          | cons h => exact absurd rfl hab
          | rel h => exact h

/-- The comparison `jsLt` agrees with Mathlib's lexicographic order on `String`. -/
theorem jsLt_iff_lt (s t : String) : jsLt s t = true ↔ s < t := by
  rw [String.lt_iff_toList_lt]
  exact jsLtChars_iff_lex s.data t.data

/-- A computed `jsLt s t = false` refutes `s < t`. -/
theorem not_lt_of_jsLt_eq_false {s t : String} (h : jsLt s t = false) :
    ¬ s < t := by
  intro hlt
  rw [← jsLt_iff_lt] at hlt
  rw [h] at hlt
  cases hlt

/-- Pairwise-distinct keys bound the number of rows with any given key by one. -/
theorem countP_key_le_one {tbl : List PaydayOverrideRow}
    (hp : tbl.Pairwise fun a b => paydayKey a ≠ paydayKey b) (k : String × String) :
    (tbl.countP fun r => decide (paydayKey r = k)) ≤ 1 := by
  induction tbl with
  | nil => simp
  | cons a tl ih =>
      rcases List.pairwise_cons.mp hp with ⟨ha, htl⟩
      by_cases hk : paydayKey a = k
      · have hzero : (tl.countP fun r => decide (paydayKey r = k)) = 0 := by
          rw [List.countP_eq_zero]
          intro r hr
          simp only [decide_eq_true_eq]
          intro hrk
          exact (ha r hr) (by rw [hk, hrk])
        rw [List.countP_cons_of_pos _ _ (by simpa using hk), hzero]
      · rw [List.countP_cons_of_neg _ _ (by simpa using hk)]
        exact ih htl

/-- The text scan of `fuzzyGo` succeeds exactly on subsequences: greedy
matching decides the sublist relation. -/
theorem fuzzyGo_iff_sublist :
    ∀ (t q : List Char), fuzzyGo q t = true ↔ q.Sublist t
  | t, [] => by simp [fuzzyGo, List.nil_sublist]
  | [], a :: as => by simp [fuzzyGo]
  | c :: ts, a :: as => by
      by_cases hca : c = a
      · subst hca
        have hstep : fuzzyGo (c :: as) (c :: ts) = fuzzyGo as ts := by
          simp [fuzzyGo]
        rw [hstep, fuzzyGo_iff_sublist ts as]
        exact List.cons_sublist_cons.symm
      · have hstep : fuzzyGo (a :: as) (c :: ts) = fuzzyGo (a :: as) ts := by
          simp [fuzzyGo, hca]
        rw [hstep, fuzzyGo_iff_sublist ts (a :: as)]
        constructor
        · exact fun h => h.cons c
        · intro h
          rcases List.cons_sublist_cons'.mp h with h' | ⟨heq, h'⟩
          · exact h'
          · exact absurd heq.symm hca

/-- Mapping a function into an `Array.prototype.join` commutes with the join. -/
theorem map_joinSep {α β : Type} (f : α → β) (sep : List α) :
    ∀ gs : List (List α),
      (joinSep sep gs).map f = joinSep (sep.map f) (gs.map (List.map f))
  | [] => by simp [joinSep]
  | [g] => by simp [joinSep]
  | g :: g' :: gs => by
      simp only [joinSep, List.map_cons, List.map_append]
      rw [map_joinSep f sep (g' :: gs)]
      simp [joinSep]

/-- Filtering out the separator turns `joinSep` into plain concatenation. -/
theorem filter_joinSep {p : Char → Bool} {sep : List Char}
    (hsep : ∀ c ∈ sep, p c = false) :
    ∀ gs : List (List Char), (joinSep sep gs).filter p = (gs.flatten).filter p
  | [] => by simp [joinSep]
  | [g] => by simp [joinSep]
  | g :: g' :: gs => by
      have hsepnil : sep.filter p = [] := by
        rw [List.filter_eq_nil_iff]
        intro c hc
        simp [hsep c hc]
      simp only [joinSep, List.flatten, List.filter_append, hsepnil,
        filter_joinSep hsep (g' :: gs)]
      simp [List.filter_append]

/-- Chunking merely regroups: joining the chunks restores the list. -/
theorem chunk3_join {α : Type} :
    ∀ l : List α, (chunk3 l).flatten = l
  | [] => by simp [chunk3]
  | [a] => by simp [chunk3]
  | [a, b] => by simp [chunk3]
  | a :: b :: c :: rest => by
      simp [chunk3, chunk3_join rest]

/-- Rendering a decimal digit with `Nat.digitChar` gives an ASCII digit character. -/
theorem digitChar_isDigit {d : Nat} (h : d < 10) :
    (Nat.digitChar d).isDigit = true := by
  interval_cases d <;> decide

/-- Reading back the code of a decimal digit character recovers the digit. -/
theorem digitChar_toNat {d : Nat} (h : d < 10) :
    (Nat.digitChar d).toNat - 48 = d := by
  interval_cases d <;> decide

/-- Appending one digit multiplies the accumulated value by ten. -/
theorem digitsVal_append (cs : List Char) (c : Char) :
    digitsVal (cs ++ [c]) = 10 * digitsVal cs + (c.toNat - 48) := by
  simp [digitsVal, List.foldl_append]

/-- Evaluating the reversed character rendering of a digit list gives the
number the digits denote. -/
theorem digitsVal_reverse_map (ds : List Nat) (h : ∀ d ∈ ds, d < 10) :
    digitsVal ((ds.map Nat.digitChar).reverse) = Nat.ofDigits 10 ds := by
  induction ds with
  | nil => simp [digitsVal, Nat.ofDigits_nil]
  | cons d ds ih =>
      simp only [List.map_cons, List.reverse_cons]
      rw [digitsVal_append, ih (fun x hx => h x (List.mem_cons_of_mem _ hx)),
        digitChar_toNat (h d (List.mem_cons_self _ _)), Nat.ofDigits_cons]
      ring

/-! ## Claim theorems -/

/-- C1: the check constraint `ck_tx_cycle_topup_debit` forces every
cycle top-up transaction to be a debit: no credit row can carry the flag. -/
theorem cycle_topup_only_debit (t : TransactionRow)
    (h : txCheck t = true) (hflag : t.is_cycle_topup = true) :
    t.transaction_type = "debit" := by
  simp only [txCheck, Bool.and_eq_true, Bool.or_eq_true, Bool.not_eq_true',
    beq_iff_eq, decide_eq_true_eq] at h
  rcases h with ⟨⟨-, -⟩, hck⟩
  rcases hck with hfalse | hdebit
  · rw [hflag] at hfalse; cases hfalse
  · exact hdebit

/-- Witness for C1 at a concrete row: a debit cycle top-up passing all checks. -/
theorem cycle_topup_only_debit_witness :
    txCheck ⟨"t1", "a1", "debit", true, "Top Up Balance", 35000, "2026-01-01",
      false, none, none, none, none⟩ = true ∧
    (⟨"t1", "a1", "debit", true, "Top Up Balance", 35000, "2026-01-01",
      false, none, none, none, none⟩ : TransactionRow).transaction_type = "debit" :=
  ⟨by decide,
   cycle_topup_only_debit
     ⟨"t1", "a1", "debit", true, "Top Up Balance", 35000, "2026-01-01",
      false, none, none, none, none⟩ (by decide) (by decide)⟩

/-- C2: the table constraints force a strictly positive amount and confine
the transaction type to 'debit' or 'credit'; direction is carried by the
type column, never by the sign of `amount`. -/
theorem amount_positive_type_constrained (t : TransactionRow)
    (h : txCheck t = true) :
    0 < t.amount ∧ (t.transaction_type = "debit" ∨ t.transaction_type = "credit") := by
  simp only [txCheck, Bool.and_eq_true, Bool.or_eq_true, Bool.not_eq_true',
    beq_iff_eq, decide_eq_true_eq] at h
  exact ⟨h.1.2, h.1.1⟩

/-- Witness for C2 at a concrete row. -/
theorem amount_positive_type_constrained_witness :
    txCheck ⟨"t2", "a1", "credit", false, "Lunch", 20000, "2026-01-02",
      false, none, none, none, none⟩ = true ∧
    (0 < (20000 : Int) ∧
      ("credit" = "debit" ∨ ("credit" : String) = "credit")) :=
  ⟨by decide,
   amount_positive_type_constrained
     ⟨"t2", "a1", "credit", false, "Lunch", 20000, "2026-01-02",
      false, none, none, none, none⟩ (by decide)⟩

/-- C10: the V6 backfill flags only active, non-transfer debit rows named
'Top Up Balance', and it preserves the `ck_tx_cycle_topup_debit`
constraint on every row of the table. -/
theorem v6_backfill_preserves_topup_invariant (tbl : List TransactionRow)
    (hck : ∀ t ∈ tbl, ckTxCycleTopupDebit t = true) :
    (∀ t ∈ v6Backfill tbl, ckTxCycleTopupDebit t = true) ∧
    (∀ t ∈ tbl, (v6Step t).is_cycle_topup = true →
      t.is_cycle_topup = true ∨
      (t.transaction_type = "debit" ∧ t.is_transfer = false ∧
        t.deleted_at = none ∧ t.transaction_name = "Top Up Balance")) := by
  constructor
  · intro t ht
    rcases List.mem_map.mp ht with ⟨s, hs, rfl⟩
    by_cases hc : v6Cond s = true
    · have hdebit : s.transaction_type = "debit" := by
        simp only [v6Cond, Bool.and_eq_true, beq_iff_eq] at hc
        exact hc.1.1.2
      simp [v6Step, hc, ckTxCycleTopupDebit, hdebit]
    · have hstep : v6Step s = s := by simp [v6Step, hc]
      rw [hstep]
      exact hck s hs
  · intro t _ hflag
    by_cases hc : v6Cond t = true
    · simp only [v6Cond, Bool.and_eq_true, Bool.not_eq_true',
        beq_iff_eq, Option.isNone_iff_eq_none] at hc
      exact Or.inr ⟨hc.1.1.2, hc.1.2, hc.2, hc.1.1.1⟩
    · have hstep : v6Step t = t := by simp [v6Step, hc]
      rw [hstep] at hflag
      exact Or.inl hflag

/-- Witness for C10 on a concrete one-row table: the backfilled top-up
debit still satisfies the constraint. -/
theorem v6_backfill_preserves_topup_invariant_witness :
    ckTxCycleTopupDebit (v6Step ⟨"t1", "a1", "debit", false, "Top Up Balance",
      35000, "2026-01-01", false, none, none, none, none⟩) = true :=
  (v6_backfill_preserves_topup_invariant
    [⟨"t1", "a1", "debit", false, "Top Up Balance", 35000, "2026-01-01",
      false, none, none, none, none⟩] (by decide)).1
    (v6Step ⟨"t1", "a1", "debit", false, "Top Up Balance", 35000, "2026-01-01",
      false, none, none, none, none⟩)
    (by decide)

/-- C3: `clampMonthYM` never yields a month beyond the current one: it
returns the current month when the input is empty or lexicographically
later than the current month, returns the input unchanged otherwise, and
its result is always at most the current month. -/
theorem clampMonthYM_not_future (nowYM ym : String) :
    clampMonthYM nowYM ym ≤ nowYM ∧
    ((ym = "" ∨ nowYM < ym) → clampMonthYM nowYM ym = nowYM) ∧
    (ym ≠ "" → ¬ nowYM < ym → clampMonthYM nowYM ym = ym) := by
  unfold clampMonthYM
  by_cases h0 : ym = ""
  · simp [h0]
  · rw [if_neg h0]
    by_cases hlt : jsLt nowYM ym = true
    · rw [if_pos hlt]
      exact ⟨le_refl _, fun _ => rfl,
        fun _ hn => absurd ((jsLt_iff_lt _ _).mp hlt) hn⟩
    · have hlt' : jsLt nowYM ym = false := Bool.eq_false_iff.mpr hlt
      rw [if_neg hlt]
      refine ⟨le_of_not_lt (not_lt_of_jsLt_eq_false hlt'), ?_, fun _ _ => rfl⟩
      intro hcase
      rcases hcase with hempty | hfut
      · exact absurd hempty h0
      · exact absurd hfut (not_lt_of_jsLt_eq_false hlt')

/-- Witness for C3: with current month `"2026-10"`, the empty token maps
to `"2026-10"` and the past token `"2026-09"` is kept unchanged. -/
theorem clampMonthYM_not_future_witness :
    clampMonthYM "2026-10" "" = "2026-10" ∧
    clampMonthYM "2026-10" "2026-09" = "2026-09" :=
  ⟨(clampMonthYM_not_future "2026-10" "").2.1 (Or.inl rfl),
   (clampMonthYM_not_future "2026-10" "2026-09").2.2 (by decide)
     (not_lt_of_jsLt_eq_false (by decide))⟩

/-- C4: `clampYmdToToday` clamps every date window to today — it returns
today when the input is empty or later than today, returns the input
unchanged otherwise, and its result is never after today — and every
date carried by a switch-form request is the image under `ymdTimeToIso`
of this clamp of the entered date. -/
theorem clampYmdToToday_not_future (today ymd : String) :
    clampYmdToToday today ymd ≤ today ∧
    ((ymd = "" ∨ today < ymd) → clampYmdToToday today ymd = today) ∧
    (ymd ≠ "" → ¬ today < ymd → clampYmdToToday today ymd = ymd) ∧
    (∀ (iso : String → String → String) (editing : Option String)
      (dateInitial timeInitial nowT fromValue stateAccountId toValue amountValue : String)
      (p : SwitchPayload),
      (switchSubmit iso today editing dateInitial timeInitial nowT
          fromValue stateAccountId toValue amountValue ymd = .post p ∨
        ∃ tid, switchSubmit iso today editing dateInitial timeInitial nowT
          fromValue stateAccountId toValue amountValue ymd = .put tid p) →
      p.date = none ∨
      ∃ t, p.date = some (iso (clampYmdToToday today ymd) t) ∧
        clampYmdToToday today ymd ≤ today) := by
  have hclamp : clampYmdToToday today ymd ≤ today ∧
      ((ymd = "" ∨ today < ymd) → clampYmdToToday today ymd = today) ∧
      (ymd ≠ "" → ¬ today < ymd → clampYmdToToday today ymd = ymd) := by
    unfold clampYmdToToday
    by_cases h0 : ymd = ""
    · simp [h0]
    · rw [if_neg h0]
      by_cases hlt : jsLt today ymd = true
      · rw [if_pos hlt]
        exact ⟨le_refl _, fun _ => rfl,
          fun _ hn => absurd ((jsLt_iff_lt _ _).mp hlt) hn⟩
      · have hlt' : jsLt today ymd = false := Bool.eq_false_iff.mpr hlt
        rw [if_neg hlt]
        refine ⟨le_of_not_lt (not_lt_of_jsLt_eq_false hlt'), ?_, fun _ _ => rfl⟩
        intro hcase
        rcases hcase with hempty | hfut
        · exact absurd hempty h0
        · exact absurd hfut (not_lt_of_jsLt_eq_false hlt')
  refine ⟨hclamp.1, hclamp.2.1, hclamp.2.2, ?_⟩
  intro iso editing dateInitial timeInitial nowT fromValue stateAccountId toValue
    amountValue p hreq
  by_cases h1 : (if fromValue = "" then stateAccountId else fromValue) = "" ∨
      toValue = "" ∨ parseAmount amountValue = 0
  · rcases hreq with h | ⟨tid, h⟩ <;> rw [switchSubmit, if_pos h1] at h <;> cases h
  · by_cases h2 : (if fromValue = "" then stateAccountId else fromValue) = toValue
    · rcases hreq with h | ⟨tid, h⟩ <;>
        rw [switchSubmit, if_neg h1, if_pos h2] at h <;> cases h
    · cases editing with
      | none =>
          rcases hreq with h | ⟨tid, h⟩
          · rw [switchSubmit, if_neg h1, if_neg h2] at h
            cases h
            by_cases hd : clampYmdToToday today ymd = ""
            · exact Or.inl (by simp [hd])
            · exact Or.inr ⟨if timeInitial = "" then nowT else timeInitial,
                by rw [if_neg hd], hclamp.1⟩
          · rw [switchSubmit, if_neg h1, if_neg h2] at h
            cases h
      | some tid0 =>
          rcases hreq with h | ⟨tid, h⟩
          · rw [switchSubmit, if_neg h1, if_neg h2] at h
            cases h
          · rw [switchSubmit, if_neg h1, if_neg h2] at h
            cases h
            by_cases hd : clampYmdToToday today ymd = ""
            · exact Or.inl (by simp [hd])
            · by_cases hinit : clampYmdToToday today ymd = dateInitial
              · exact Or.inl (by simp [hd, hinit])
              · exact Or.inr ⟨if timeInitial = "" then nowT else timeInitial,
                  by rw [if_neg hd, if_neg hinit], hclamp.1⟩

/-- Witness for C4: with today `"2026-10-11"`, a future entry
`"2026-12-01"` is clamped, and a concrete non-editing submission carries
exactly the clamped date through `iso`. -/
theorem clampYmdToToday_not_future_witness :
    clampYmdToToday "2026-10-11" "" = "2026-10-11" ∧
    clampYmdToToday "2026-10-11" "2026-09-30" = "2026-09-30" ∧
    ((SwitchPayload.mk "a" "b" 100
        (some ((fun d t => d ++ "T" ++ t) (clampYmdToToday "2026-10-11" "2026-12-01") "12:00"))).date = none ∨
      ∃ t, (SwitchPayload.mk "a" "b" 100
        (some ((fun d t => d ++ "T" ++ t) (clampYmdToToday "2026-10-11" "2026-12-01") "12:00"))).date =
          some ((fun d t => d ++ "T" ++ t) (clampYmdToToday "2026-10-11" "2026-12-01") t) ∧
        clampYmdToToday "2026-10-11" "2026-12-01" ≤ "2026-10-11") :=
  ⟨(clampYmdToToday_not_future "2026-10-11" "").2.1 (Or.inl rfl),
   (clampYmdToToday_not_future "2026-10-11" "2026-09-30").2.2.1 (by decide)
     (not_lt_of_jsLt_eq_false (by decide)),
   (clampYmdToToday_not_future "2026-10-11" "2026-12-01").2.2.2
     (fun d t => d ++ "T" ++ t) none "" "" "12:00" "a" "" "b" "100"
     (SwitchPayload.mk "a" "b" 100
       (some ((fun d t => d ++ "T" ++ t) (clampYmdToToday "2026-10-11" "2026-12-01") "12:00")))
     (Or.inl (by rfl))⟩

/-- C6: the switch form issues a request only when a source and a target
account are selected, they differ, and the parsed amount is strictly
positive; otherwise it shows an error message and sends nothing. -/
theorem switch_request_guard (iso : String → String → String)
    (today : String) (editing : Option String)
    (dateInitial timeInitial nowT fromValue stateAccountId toValue amountValue
      dateValue : String) :
    (((if fromValue = "" then stateAccountId else fromValue) = toValue ∨
      (if fromValue = "" then stateAccountId else fromValue) = "" ∨ toValue = "" ∨
      parseAmount amountValue = 0) →
      ∃ msg, switchSubmit iso today editing dateInitial timeInitial nowT
        fromValue stateAccountId toValue amountValue dateValue = .error msg) ∧
    (∀ p : SwitchPayload,
      (switchSubmit iso today editing dateInitial timeInitial nowT
          fromValue stateAccountId toValue amountValue dateValue = .post p ∨
        ∃ tid, switchSubmit iso today editing dateInitial timeInitial nowT
          fromValue stateAccountId toValue amountValue dateValue = .put tid p) →
      p.source_account_id ≠ p.target_account_id ∧ 0 < p.amount ∧
      p.source_account_id ≠ "" ∧ p.target_account_id ≠ "" ∧
      p.source_account_id = (if fromValue = "" then stateAccountId else fromValue) ∧
      p.target_account_id = toValue ∧ p.amount = parseAmount amountValue) := by
  constructor
  · intro hbad
    by_cases h1 : (if fromValue = "" then stateAccountId else fromValue) = "" ∨
        toValue = "" ∨ parseAmount amountValue = 0
    · exact ⟨_, by rw [switchSubmit, if_pos h1]⟩
    · have h2 : (if fromValue = "" then stateAccountId else fromValue) = toValue := by
        rcases hbad with h | h | h | h
        · exact h
        · exact absurd (Or.inl h) h1
        · exact absurd (Or.inr (Or.inl h)) h1
        · exact absurd (Or.inr (Or.inr h)) h1
      exact ⟨_, by rw [switchSubmit, if_neg h1, if_pos h2]⟩
  · intro p hreq
    by_cases h1 : (if fromValue = "" then stateAccountId else fromValue) = "" ∨
        toValue = "" ∨ parseAmount amountValue = 0
    · rcases hreq with h | ⟨tid, h⟩ <;> rw [switchSubmit, if_pos h1] at h <;> cases h
    · by_cases h2 : (if fromValue = "" then stateAccountId else fromValue) = toValue
      · rcases hreq with h | ⟨tid, h⟩ <;>
          rw [switchSubmit, if_neg h1, if_pos h2] at h <;> cases h
      · push_neg at h1
        have hamt : 0 < parseAmount amountValue := Nat.pos_of_ne_zero h1.2.2
        cases editing with
        | none =>
            rcases hreq with h | ⟨tid, h⟩ <;>
              rw [switchSubmit, if_neg (by push_neg; exact h1), if_neg h2] at h <;>
              cases h
            exact ⟨h2, hamt, h1.1, h1.2.1, rfl, rfl, rfl⟩
        | some tid0 =>
            rcases hreq with h | ⟨tid, h⟩ <;>
              rw [switchSubmit, if_neg (by push_neg; exact h1), if_neg h2] at h <;>
              cases h
            exact ⟨h2, hamt, h1.1, h1.2.1, rfl, rfl, rfl⟩

/-- Witness for C6: a same-account submission is rejected with an error,
and a validated concrete submission satisfies the guard. -/
theorem switch_request_guard_witness :
    (∃ msg, switchSubmit (fun d t => d ++ "T" ++ t) "2026-10-11" none "" "" "12:00"
      "a" "" "a" "100" "2026-10-01" = .error msg) :=
  (switch_request_guard (fun d t => d ++ "T" ++ t) "2026-10-11" none "" "" "12:00"
    "a" "" "a" "100" "2026-10-01").1 (Or.inl (by decide))

/-- C7: every stored payday override lies between 1 and 31, the primary
key `(username, month)` allows at most one override per owner and month,
and the payday form only submits a day in 1..31. -/
theorem payday_day_bounds :
    (∀ tbl : List PaydayOverrideRow, paydayTableOk tbl →
      (∀ r ∈ tbl, 1 ≤ r.payday_day ∧ r.payday_day ≤ 31) ∧
      ∀ k : String × String,
        (tbl.countP fun r => decide (paydayKey r = k)) ≤ 1) ∧
    (∀ (month : String) (day : Int) (p : String × Int),
      paydaySubmit month day = some p → 1 ≤ p.2 ∧ p.2 ≤ 31) := by
  constructor
  · intro tbl hok
    refine ⟨?_, fun k => countP_key_le_one hok.2 k⟩
    intro r hr
    have hcheck := hok.1 r hr
    simp only [paydayRowCheck, Bool.and_eq_true, decide_eq_true_eq] at hcheck
    exact hcheck
  · intro month day p hp
    unfold paydaySubmit at hp
    by_cases hbad : day = 0 ∨ day < 1 ∨ 31 < day
    · rw [if_pos hbad] at hp
      cases hp
    · rw [if_neg hbad] at hp
      cases hp
      push_neg at hbad
      refine ⟨?_, ?_⟩
      · simpa using hbad.2.1
      · simpa using hbad.2.2

/-- Witness for C7 on a one-row table and a concrete form submission. -/
theorem payday_day_bounds_witness :
    (1 ≤ (PaydayOverrideRow.mk "u" "2026-10" 25).payday_day ∧
      (PaydayOverrideRow.mk "u" "2026-10" 25).payday_day ≤ 31) ∧
    (1 ≤ (("2026-10", (25 : Int)) : String × Int).2 ∧
      (("2026-10", (25 : Int)) : String × Int).2 ≤ 31) :=
  ⟨(payday_day_bounds.1 [⟨"u", "2026-10", 25⟩] ⟨by decide, by decide⟩).1
      ⟨"u", "2026-10", 25⟩ (by decide),
   payday_day_bounds.2 "2026-10" 25 ("2026-10", 25) (by decide)⟩

/-- C8: `fuzzyMatch` succeeds exactly when the query is a (not
necessarily contiguous) subsequence of the text; the empty query matches
everything; and `filterRowsBySearch` retains a row exactly when the
normalized query is a subsequence of the normalized join of transaction
name, account name, displayed date, and the three amount cells. -/
theorem fuzzyMatch_subsequence_semantics :
    (∀ q t : String, fuzzyMatch q t = true ↔ q.data.Sublist t.data) ∧
    (∀ t : String, fuzzyMatch "" t = true) ∧
    (∀ (dispDate : String → String) (rows : List LedgerRow) (q : String)
      (r : LedgerRow),
      r ∈ filterRowsBySearch dispDate rows q ↔
        r ∈ rows ∧
          (normalizeSearch q).data.Sublist
            (normalizeSearch (rowHaystack dispDate r)).data) := by
  refine ⟨fun q t => fuzzyGo_iff_sublist t.data q.data,
    fun t => by simp [fuzzyMatch, fuzzyGo], ?_⟩
  intro dispDate rows q r
  simp only [filterRowsBySearch]
  by_cases hq : normalizeSearch q = ""
  · rw [if_pos hq, hq]
    simp [List.nil_sublist]
  · rw [if_neg hq, List.mem_filter]
    exact and_congr_right fun _ => fuzzyGo_iff_sublist _ _

/-- Witness for C8: the subsequence query `"lnch"` retains a concrete row
whose normalized haystack is `"lunchcash20260102"`. -/
theorem fuzzyMatch_subsequence_semantics_witness :
    (⟨"Lunch", "Cash", "2026-01-02", none, none, none⟩ : LedgerRow) ∈
      filterRowsBySearch (fun s => s)
        [⟨"Lunch", "Cash", "2026-01-02", none, none, none⟩] "lnch" :=
  (fuzzyMatch_subsequence_semantics.2.2 (fun s => s)
    [⟨"Lunch", "Cash", "2026-01-02", none, none, none⟩] "lnch"
    ⟨"Lunch", "Cash", "2026-01-02", none, none, none⟩).mpr
    ⟨by decide, by decide⟩

/-- C5: ledger search is case-insensitive — changing the letter case of
the query leaves the filtered row list unchanged, and changing the
letter case of a row's transaction or account name does not change
whether the row matches. -/
theorem search_case_insensitive :
    (∀ (dispDate : String → String) (rows : List LedgerRow) (q q' : String),
      caseFold q = caseFold q' →
      filterRowsBySearch dispDate rows q = filterRowsBySearch dispDate rows q') ∧
    (∀ (dispDate : String → String) (q : String) (r r' : LedgerRow),
      caseFold r.transaction_name = caseFold r'.transaction_name →
      caseFold r.account_name = caseFold r'.account_name →
      r.date = r'.date → r.debit = r'.debit → r.credit = r'.credit →
      r.balance = r'.balance →
      fuzzyMatch (normalizeSearch q) (normalizeSearch (rowHaystack dispDate r)) =
        fuzzyMatch (normalizeSearch q) (normalizeSearch (rowHaystack dispDate r'))) := by
  constructor
  · intro dispDate rows q q' h
    have hn : normalizeSearch q = normalizeSearch q' :=
      congrArg (fun l => String.mk (l.filter isSearchChar)) h
    simp only [filterRowsBySearch]
    rw [hn]
  · intro dispDate q r r' htn han hdate hdebit hcredit hbalance
    have hhay : caseFold (rowHaystack dispDate r) = caseFold (rowHaystack dispDate r') := by
      have htn' : r.transaction_name.data.map Char.toLower =
          r'.transaction_name.data.map Char.toLower := htn
      have han' : r.account_name.data.map Char.toLower =
          r'.account_name.data.map Char.toLower := han
      show (rowHaystack dispDate r).data.map Char.toLower =
        (rowHaystack dispDate r').data.map Char.toLower
      simp only [rowHaystack]
      rw [map_joinSep, map_joinSep]
      simp only [List.map_cons, List.map_nil]
      rw [htn', han', hdate, hdebit, hcredit, hbalance]
    have hn : normalizeSearch (rowHaystack dispDate r) =
        normalizeSearch (rowHaystack dispDate r') :=
      congrArg (fun l => String.mk (l.filter isSearchChar)) hhay
    rw [hn]

/-- Witness for C5: searching `"CASH"` and `"cash"` filter a concrete
one-row list identically. -/
theorem search_case_insensitive_witness :
    filterRowsBySearch (fun s => s)
        [⟨"Lunch", "Cash", "2026-01-02", none, none, none⟩] "CASH" =
      filterRowsBySearch (fun s => s)
        [⟨"Lunch", "Cash", "2026-01-02", none, none, none⟩] "cash" :=
  search_case_insensitive.1 (fun s => s)
    [⟨"Lunch", "Cash", "2026-01-02", none, none, none⟩] "CASH" "cash" (by decide)

/-- C9: `parseAmount` depends only on the digit characters of its input,
and formatting any natural amount with `fmtIDR` (id-ID thousand
separators) and parsing it back recovers the amount exactly. -/
theorem parseAmount_fmtIDR_roundtrip :
    (∀ s : String, parseAmount s = parseAmount (String.mk (s.data.filter Char.isDigit))) ∧
    (∀ n : Nat, parseAmount (fmtIDR n) = n) := by
  constructor
  · intro s
    have hff : (String.mk (s.data.filter Char.isDigit)).data.filter Char.isDigit =
        s.data.filter Char.isDigit := by
      show (s.data.filter Char.isDigit).filter Char.isDigit = s.data.filter Char.isDigit
      rw [List.filter_filter]
      simp
    simp only [parseAmount]
    rw [hff]
  · intro n
    by_cases hn : n = 0
    · subst hn
      decide
    · have hdig : ∀ d ∈ Nat.digits 10 n, d < 10 :=
        fun d hd => Nat.digits_lt_base (by norm_num) hd
      have hX : ∀ c ∈ (Nat.digits 10 n).map Nat.digitChar, Char.isDigit c = true := by
        intro c hc
        rcases List.mem_map.mp hc with ⟨d, hd, rfl⟩
        exact digitChar_isDigit (hdig d hd)
      have hflat :
          ((((chunk3 ((Nat.digits 10 n).map Nat.digitChar)).map List.reverse).reverse).flatten) =
            ((Nat.digits 10 n).map Nat.digitChar).reverse := by
        rw [← List.reverse_flatten, chunk3_join]
      have hclean :
          (fmtIDR n).data.filter Char.isDigit =
            ((Nat.digits 10 n).map Nat.digitChar).reverse := by
        have hdata : (fmtIDR n).data = joinSep ['.']
            (((chunk3 ((Nat.digits 10 n).map Nat.digitChar)).map List.reverse).reverse) := by
          rw [fmtIDR, if_neg hn]
        rw [hdata, filter_joinSep (by decide), hflat]
        exact List.filter_eq_self.mpr fun c hc =>
          hX c (List.mem_reverse.mp hc)
      have hne : ((Nat.digits 10 n).map Nat.digitChar).reverse ≠ [] := by
        simp only [ne_eq, List.reverse_eq_nil_iff, List.map_eq_nil_iff,
          Nat.digits_eq_nil_iff_eq_zero]
        exact hn
      simp only [parseAmount]
      rw [hclean, if_neg hne, digitsVal_reverse_map (Nat.digits 10 n) hdig,
        Nat.ofDigits_digits]

end CashFlow
